import Mathlib

/-!
# Verification of the customer-feedback system (`src/app2.py`)

A shallow embedding of the program in `src/app2.py`: a Streamlit app that
persists customer feedback entries to a CSV file (`load_data`, the form
submit handler), renders a bar chart of feedback reasons
(`create_reason_chart`), and builds a paginated PDF report
(`create_report_pdf`, the "Generate PDF Report" handler).

Modelling conventions:
* The persisted CSV file is modelled at the logical level as a header plus a
  list of rows of cell strings (`CsvFile`); the textual quoting/escaping
  performed by pandas round-trips cell content and is below the granularity
  of the model.
* `pd.read_csv` is modelled including its per-column type inference: a
  column all of whose cells parse as (optionally signed) integer literals
  becomes an integer column, otherwise a column all of whose cells parse as
  decimal literals becomes a float column, otherwise cells stay raw text.
  The `dtype={'Date': str}` argument forces the `Date` column to raw text.
  Missing-value (NaN) handling, scientific notation and boolean inference
  are below the granularity of the model; the theorems below stay inside
  the region where the model and pandas agree (non-empty cells, plain
  decimal or non-numeric text).
* Float cells are carried as an integer mantissa `m` and decimal exponent
  `k` (value `m / 10^k`) with trailing zeros stripped at parse time, which
  is exactly the information Python's `repr` of such a float prints back
  (`"5.000"` parses to the float `5.0` and is re-rendered `"5.0"`).
* The weight delivered by the form's number input (`format="%.3f"`) is
  modelled as a count of thousandths of a gram, so `f"{w:.3f}"` is exact
  decimal formatting.
* Vertical coordinates in the PDF model are in deci-points
  (1 inch = 72 pt = 720 dp, letter height 11 in = 7920 dp), so every
  quantity in `create_report_pdf` is an exact integer.
-/

namespace FeedbackApp

/-! ## Decimal digit strings -/

/-- The character for a decimal digit `n < 10`. -/
def digitChar (n : Nat) : Char := Char.ofNat (48 + n)

/-- Decimal digits of `n`, most significant first; fuel-driven so that it is
structurally recursive (and hence kernel-reducible). -/
def natToDigitsAux : Nat → Nat → List Char
  | 0, _ => []
  | fuel + 1, n => if n < 10 then [digitChar n] else natToDigitsAux fuel (n / 10) ++ [digitChar (n % 10)]

/-- Decimal digits of `n`, most significant first (models Python's `str`/
`repr` of a nonnegative integer). -/
def natToDigits (n : Nat) : List Char := natToDigitsAux (n + 1) n

/-- The numeric value of a digit string (most significant first). -/
def natOfDigits (l : List Char) : Nat := l.foldl (fun a c => a * 10 + (c.toNat - 48)) 0

theorem digitChar_isDigit {n : Nat} (h : n < 10) : (digitChar n).isDigit = true := by
  interval_cases n <;> decide

theorem digitChar_toNat {n : Nat} (h : n < 10) : (digitChar n).toNat = 48 + n := by
  interval_cases n <;> decide

theorem isDigit_ne_dot {c : Char} (h : c.isDigit = true) : c ≠ '.' := by
  intro hc; subst hc; exact absurd h (by decide)

theorem isDigit_ne_plus {c : Char} (h : c.isDigit = true) : c ≠ '+' := by
  intro hc; subst hc; exact absurd h (by decide)

theorem isDigit_ne_minus {c : Char} (h : c.isDigit = true) : c ≠ '-' := by
  intro hc; subst hc; exact absurd h (by decide)

theorem natToDigitsAux_ne_nil {fuel n : Nat} (h : n < fuel) :
    natToDigitsAux fuel n ≠ [] := by
  match fuel with
  | fuel + 1 =>
    unfold natToDigitsAux
    split
    · simp
    · simp

theorem natToDigits_ne_nil (n : Nat) : natToDigits n ≠ [] :=
  natToDigitsAux_ne_nil (Nat.lt_succ_self n)

theorem natToDigitsAux_all_digit {fuel n : Nat} (h : n < fuel) :
    ∀ c ∈ natToDigitsAux fuel n, c.isDigit = true := by
  induction fuel generalizing n with
  | zero => omega
  | succ fuel ih =>
    unfold natToDigitsAux
    split
    · intro c hc
      simp only [List.mem_singleton] at hc
      subst hc
      exact digitChar_isDigit (by omega)
    · rename_i hn
      intro c hc
      rw [List.mem_append] at hc
      rcases hc with hc | hc
      · exact ih (by omega) c hc
      · simp only [List.mem_singleton] at hc
        subst hc
        exact digitChar_isDigit (Nat.mod_lt _ (by omega))

theorem natToDigits_all_digit (n : Nat) : ∀ c ∈ natToDigits n, c.isDigit = true :=
  natToDigitsAux_all_digit (Nat.lt_succ_self n)

theorem natOfDigits_foldl_init (l : List Char) (a : Nat) :
    l.foldl (fun a c => a * 10 + (c.toNat - 48)) a = a * 10 ^ l.length + natOfDigits l := by
  induction l generalizing a with
  | nil => simp [natOfDigits]
  | cons c cs ih =>
    simp only [List.foldl_cons, natOfDigits, List.length_cons]
    rw [ih, ih (0 * 10 + (c.toNat - 48))]
    ring

theorem natOfDigits_append (l₁ l₂ : List Char) :
    natOfDigits (l₁ ++ l₂) = natOfDigits l₁ * 10 ^ l₂.length + natOfDigits l₂ := by
  unfold natOfDigits
  rw [List.foldl_append, natOfDigits_foldl_init]
  rfl

theorem natOfDigits_cons (c : Char) (l : List Char) :
    natOfDigits (c :: l) = (c.toNat - 48) * 10 ^ l.length + natOfDigits l := by
  have := natOfDigits_append [c] l
  simpa [natOfDigits] using this

theorem natOfDigits_replicate_zero (j : Nat) :
    natOfDigits (List.replicate j '0') = 0 := by
  induction j with
  | zero => rfl
  | succ j ih => rw [List.replicate_succ, natOfDigits_cons, ih]; simp

theorem natOfDigits_natToDigitsAux {fuel n : Nat} (h : n < fuel) :
    natOfDigits (natToDigitsAux fuel n) = n := by
  induction fuel generalizing n with
  | zero => omega
  | succ fuel ih =>
    unfold natToDigitsAux
    split
    · rename_i hn
      simp [natOfDigits, digitChar_toNat hn]
    · rename_i hn
      rw [natOfDigits_append, ih (by omega)]
      simp [natOfDigits, digitChar_toNat (Nat.mod_lt n (show 0 < 10 by omega))]
      omega

theorem natOfDigits_natToDigits (n : Nat) : natOfDigits (natToDigits n) = n :=
  natOfDigits_natToDigitsAux (Nat.lt_succ_self n)

theorem natToDigitsAux_length_le {fuel n j : Nat} (hf : n < fuel) (hj : 1 ≤ j)
    (h : n < 10 ^ j) : (natToDigitsAux fuel n).length ≤ j := by
  induction fuel generalizing n j with
  | zero => omega
  | succ fuel ih =>
    unfold natToDigitsAux
    split
    · simpa using hj
    · rename_i hn
      rw [List.length_append, List.length_singleton]
      have hj2 : 2 ≤ j := by
        by_contra hcon
        have : j = 1 := by omega
        subst this
        simp at h
        omega
      have : n / 10 < 10 ^ (j - 1) := by
        have h10 : (10 : Nat) ^ j = 10 ^ (j - 1) * 10 := by
          conv_lhs => rw [show j = (j - 1) + 1 by omega]
          rw [pow_succ]
        apply Nat.div_lt_of_lt_mul
        rw [Nat.mul_comm]
        omega
      have := ih (n := n / 10) (j := j - 1) (by omega) (by omega) this
      omega

theorem natToDigits_length_le {n j : Nat} (hj : 1 ≤ j) (h : n < 10 ^ j) :
    (natToDigits n).length ≤ j :=
  natToDigitsAux_length_le (Nat.lt_succ_self n) hj h

/-! ## Cell parsing (pandas `read_csv` type inference) and rendering (`to_csv`) -/

/-- Strip trailing `'0'` characters from a digit string. -/
def stripTrailingZeros : List Char → List Char
  | [] => []
  | c :: cs =>
    match stripTrailingZeros cs with
    | [] => if c = '0' then [] else [c]
    | r => c :: r

/-- A nonempty all-digit string parsed as a natural number, otherwise `none`. -/
def parseDigitsOnly (l : List Char) : Option Nat :=
  if l.isEmpty then none
  else if l.all (·.isDigit) then some (natOfDigits l) else none

/-- An integer literal (optional sign, then digits), as pandas accepts for an
integer column. -/
def parseIntCell (s : String) : Option Int :=
  match s.data with
  | [] => none
  | c :: r =>
    if c = '+' then (parseDigitsOnly r).map Int.ofNat
    else if c = '-' then (parseDigitsOnly r).map (fun a : Nat => -(a : Int))
    else (parseDigitsOnly (c :: r)).map Int.ofNat

/-- An unsigned decimal literal `digits[.digits]`, returned as a mantissa and
a decimal exponent with trailing fractional zeros stripped (the information a
binary float retains: `"5.000"` and `"5.0"` and `"5."` all become `(5, 0)`). -/
def parseDec (l : List Char) : Option (Nat × Nat) :=
  let ip := l.takeWhile (·.isDigit)
  let rest := l.dropWhile (·.isDigit)
  match rest with
  | [] => if ip.isEmpty then none else some (natOfDigits ip, 0)
  | c :: fp =>
    if c = '.' then
      if fp.all (·.isDigit) ∧ (¬ ip.isEmpty ∨ ¬ fp.isEmpty) then
        let fp' := stripTrailingZeros fp
        some (natOfDigits ip * 10 ^ fp'.length + natOfDigits fp', fp'.length)
      else none
    else none

/-- A decimal literal (optional sign), as pandas accepts for a float column;
value `m / 10^k` for result `(m, k)`. -/
def parseNumCell (s : String) : Option (Int × Nat) :=
  match s.data with
  | [] => none
  | c :: r =>
    if c = '+' then (parseDec r).map (fun p => ((p.1 : Int), p.2))
    else if c = '-' then (parseDec r).map (fun p => (-(p.1 : Int), p.2))
    else (parseDec (c :: r)).map (fun p => ((p.1 : Int), p.2))

/-- The rational value `m / 10^k` of a parsed decimal. -/
def qval (m : Int) (k : Nat) : ℚ := (m : ℚ) / 10 ^ k

/-- Python's `repr` of an integer. -/
def intRepr (n : Int) : String :=
  if n < 0 then ⟨'-' :: natToDigits n.natAbs⟩ else ⟨natToDigits n.natAbs⟩

/-- Python's `repr` of the float `m / 10^k` (for `(m, k)` as produced by
`parseDec`/`parseNumCell`): the digits of `m` with a decimal point inserted
`k` places from the right, padding with leading zeros, and a single `"0"`
fractional digit when `k = 0`. -/
def floatRepr (m : Int) (k : Nat) : String :=
  let d := natToDigits m.natAbs
  let d := List.replicate (k + 1 - d.length) '0' ++ d
  let ip := d.take (d.length - k)
  let fp := d.drop (d.length - k)
  ⟨(if m < 0 then ['-'] else []) ++ ip ++ '.' :: (if k = 0 then ['0'] else fp)⟩

/-! ## The data model: CSV files and typed data frames -/

/-- One persisted CSV row: the six cell texts. -/
abbrev Row := List String

/-- The persisted CSV file (`customer_data.csv`): header plus rows. -/
structure CsvFile where
  header : List String
  rows : List Row
deriving DecidableEq, Repr

/-- A cell after `pd.read_csv` column typing: raw text, an integer, or a
float carried as mantissa/exponent (value `m / 10^k`). -/
inductive Cell where
  | str (s : String)
  | int (n : Int)
  | float (m : Int) (k : Nat)
deriving DecidableEq, Repr

/-- An in-memory pandas `DataFrame`: column names plus typed rows. -/
structure DataFrame where
  header : List String
  rows : List (List Cell)
deriving DecidableEq, Repr

/-- The column dtype chosen by `read_csv` for one column. -/
inductive DType where
  | dstr
  | dint
  | dfloat
deriving DecidableEq, Repr

/-- The fixed schema (line 21 of `app2.py`). -/
def columns : List String :=
  ["Date", "Customer Name", "Contact Number", "Product", "Weight (grams)", "Reason for Feedback"]

/-- The raw cells of column `j` (empty text for short rows). -/
def colRaw (file : CsvFile) (j : Nat) : List String :=
  file.rows.map (fun r => r.getD j "")

/-- The dtype pandas infers for a column: forced raw text (the
`dtype={'Date': str}` argument), else integer when every cell is an integer
literal, else float when every cell is a decimal literal, else raw text. -/
def inferDType (forceStr : Bool) (col : List String) : DType :=
  if forceStr then .dstr
  else if col.all (fun s => (parseIntCell s).isSome) then .dint
  else if col.all (fun s => (parseNumCell s).isSome) then .dfloat
  else .dstr

/-- Interpret one raw cell at a column dtype. -/
def typeCell (d : DType) (s : String) : Cell :=
  match d with
  | .dstr => .str s
  | .dint =>
    match parseIntCell s with
    | some n => .int n
    | none => .str s
  | .dfloat =>
    match parseNumCell s with
    | some (m, k) => .float m k
    | none => .str s

/-- Models `pd.read_csv(DATA_FILE, dtype={'Date': str})` (line 19 of `app2.py`). -/
def read_csv (file : CsvFile) : DataFrame :=
  let dt : Nat → DType := fun j =>
    inferDType (file.header.getD j "" = "Date") (colRaw file j)
  ⟨file.header,
   file.rows.map (fun r => (List.range file.header.length).map (fun j => typeCell (dt j) (r.getD j "")))⟩

/-- Models `load_data` (lines 16–22 of `app2.py`): read the CSV if the file exists,
else an empty frame with the fixed schema. The `Option` is the existence of
`customer_data.csv` on disk. -/
def load_data : Option CsvFile → DataFrame
  | some f => read_csv f
  | none => ⟨columns, []⟩

/-- The `to_csv` rendering of one typed cell back to text. -/
def renderCell : Cell → String
  | .str s => s
  | .int n => intRepr n
  | .float m k => floatRepr m k

/-- The `to_csv` rendering of one typed row. -/
def renderRow (r : List Cell) : Row := r.map renderCell

/-! ## The entry form and its submit handler (lines 97–115 of `app2.py`) -/

/-- A calendar date as picked by `st.date_input`. -/
structure Ymd where
  y : Nat
  m : Nat
  d : Nat
deriving DecidableEq, Repr

/-- Digits of `n` left-padded with zeros to width `w`. -/
def padDigits (w n : Nat) : List Char :=
  let d := natToDigits n
  List.replicate (w - d.length) '0' ++ d

/-- Models `form_date.strftime("%Y-%m-%d")` (line 112). -/
def formatDate (d : Ymd) : String :=
  ⟨padDigits 4 d.y ++ '-' :: (padDigits 2 d.m ++ '-' :: padDigits 2 d.d)⟩

/-- Models `f"{form_weight:.3f}"` (line 112), for a weight of `n` thousandths of a
gram. -/
def formatWeight (n : Nat) : String :=
  ⟨natToDigits (n / 1000) ++ '.' :: padDigits 3 (n % 1000)⟩

/-- The product select-box options (line 104). -/
def productOptions : List String :=
  ["", "Bangle", "Ring", "Chain", "Earring", "Necklace", "Bracelet", "Other"]

/-- The reason select-box options (line 106). -/
def reasonOptions : List String :=
  ["", "VA Problem", "Model Problem", "Selection Issue", "Staff Issue", "Live Shopping", "JPS Card"]

/-- The six form widgets' values at submit time. `weightMg` is the number
input's value in thousandths of a gram (the widget uses `format="%.3f"`,
`min_value=0.0`). -/
structure FormInput where
  date : Ymd
  name : String
  contact : String
  product : String
  weightMg : Nat
  reason : String
deriving DecidableEq, Repr

/-- The `new_entry` row built on line 112. -/
def entryRow (f : FormInput) : Row :=
  [formatDate f.date, f.name, f.contact, f.product, formatWeight f.weightMg, f.reason]

/-- The user-visible outcome of a submit. -/
inductive SubmitMsg where
  | warning
  | success
deriving DecidableEq, Repr

/-- The form submit handler (lines 108–115): reject with a warning when
name, product or reason is empty; otherwise re-render the loaded frame,
append the new row, and rewrite the whole file (`to_csv(DATA_FILE,
index=False)`), reporting success. The returned `Option CsvFile` is the
state of `customer_data.csv` after the action. -/
def handleSubmit (file : Option CsvFile) (f : FormInput) : Option CsvFile × SubmitMsg :=
  if f.name = "" ∨ f.product = "" ∨ f.reason = "" then (file, .warning)
  else
    let df := load_data file
    (some ⟨df.header, df.rows.map renderRow ++ [entryRow f]⟩, .success)

/-! ## Chart renderer (`create_reason_chart`, lines 25–41) -/

/-- One row of the data frame as consumed by the report section, after
`pd.to_datetime(df['Date'])` (line 123): the date is a day ordinal of the
parsed timestamp (dates compare as calendar dates), the other fields are the
displayed texts. -/
structure ReportRow where
  date : Int
  name : String
  contact : String
  product : String
  weight : String
  reason : String
deriving DecidableEq, Repr

/-- Models `df['Reason for Feedback'].value_counts()` (line 29): one pair per
distinct reason, with its number of occurrences. -/
def value_counts (l : List String) : List (String × Nat) :=
  l.dedup.map (fun r => (r, l.count r))

/-- Models `.sort_values()` (line 31): sort the bars ascending by count. -/
def sortByCount (l : List (String × Nat)) : List (String × Nat) :=
  List.insertionSort (fun a b => a.2 ≤ b.2) l

/-- Models `create_reason_chart` (lines 25–41): `None` when the frame is empty or
has no reason column, otherwise the horizontal bars of the rendered chart,
one `(reason, count)` pair per bar, ascending by count. The rasterized
image (title, axis labels, gridline, 150 dpi PNG buffer) is abstracted to
the bar data it draws. -/
def create_reason_chart (cols : List String) (rows : List ReportRow) : Option (List (String × Nat)) :=
  if rows.isEmpty ∨ "Reason for Feedback" ∉ cols then none
  else some (sortByCount (value_counts (rows.map (·.reason))))

/-! ## PDF report builder (`create_report_pdf`, lines 44–88)

Vertical coordinates are in deci-points: 1 inch = 720 dp; letter height
11 in = 7920 dp. The constants below are those of the source:
title at `height - 0.75*inch` = 7380; entry cursor starts at
`height - 1.0*inch` = 7200; chart advance `4.0*inch` = 2880 (image bottom at
`y - 3.5*inch`); section-header advance `0.25*inch` = 180;
`line_height = 0.20*inch` = 144; page-break threshold `1.5*inch` = 1080.
Text content of drawn strings is abstracted to the kind of drawing plus the
entry's position in the filtered frame; pages count from 0. -/

/-- What one canvas drawing call draws. -/
inductive OpKind where
  | title
  | chartImg
  | header (cont : Bool)
  | entryLine1 (i : Nat)
  | entryLine2 (i : Nat)
  | divider (i : Nat)
deriving DecidableEq, Repr

/-- One canvas drawing call: the page it lands on, its vertical position
(deci-points from the bottom edge) and what it draws. -/
structure Op where
  page : Nat
  y : Int
  kind : OpKind
deriving DecidableEq, Repr

/-- The canvas state while laying out entries. -/
structure RepState where
  page : Nat
  y : Int
  idx : Nat
  ops : List Op
deriving Repr

/-- One iteration of the `for index, row in report_df.iterrows()` loop
(lines 67–84): break to a fresh page with the "Detailed Entries (Continued)"
header when fewer than 1080 dp (1.5 in) remain, then draw the entry's two
text lines and the divider. -/
def drawEntryBlock (st : RepState) : RepState :=
  let st1 : RepState :=
    if st.y < 1080 then
      { page := st.page + 1, y := 7200 - 180, idx := st.idx,
        ops := st.ops ++ [⟨st.page + 1, 7200, .header true⟩] }
    else st
  { page := st1.page, y := st1.y - 144 - 72 - 180, idx := st1.idx + 1,
    ops := st1.ops ++
      [⟨st1.page, st1.y, .entryLine1 st1.idx⟩,
       ⟨st1.page, st1.y - 144, .entryLine2 st1.idx⟩,
       ⟨st1.page, st1.y - 144 - 72, .divider st1.idx⟩] }

/-- Models `create_report_pdf(report_df, chart_image)` (lines 44–88): the sequence
of canvas drawing calls, in order. -/
def create_report_pdf (entries : List ReportRow) (chart : Option (List (String × Nat))) : List Op :=
  let titleOps : List Op := [⟨0, 7380, .title⟩]
  let ops0 : List Op := titleOps ++ (if chart.isSome then [⟨0, 7200 - 2520, .chartImg⟩] else [])
  let y0 : Int := if chart.isSome then 7200 - 2880 else 7200
  let ops1 : List Op := ops0 ++ [⟨0, y0, .header false⟩]
  let st0 : RepState := ⟨0, y0 - 180, 0, ops1⟩
  (entries.foldl (fun st _ => drawEntryBlock st) st0).ops

/-! ## The "Generate PDF Report" handler (lines 119–154) -/

/-- The date-range mask and filter (lines 136–137):
`(df['Date'].dt.date >= start_date) & (df['Date'].dt.date <= end_date)`. -/
def filterByDate (rows : List ReportRow) (s e : Int) : List ReportRow :=
  rows.filter (fun r => s ≤ r.date ∧ r.date ≤ e)

/-- The user-visible outcome of the Generate PDF Report button. -/
inductive GenOutcome where
  | error
  | emptyWarning
  | pdf (ops : List Op)
deriving DecidableEq, Repr

/-- The Generate PDF Report click handler (lines 132–154): error when
`start_date > end_date`; otherwise filter to the closed interval; warn when
nothing matches; otherwise build the PDF, with the chart only when the
checkbox was ticked. -/
def generate_handler (rows : List ReportRow) (s e : Int) (includeChart : Bool) : GenOutcome :=
  if s > e then .error
  else
    let filtered := filterByDate rows s e
    if filtered.isEmpty then .emptyWarning
    else
      let chart := if includeChart then create_reason_chart columns filtered else none
      .pdf (create_report_pdf filtered chart)

/-! ## Concrete inputs used by witnesses and counterexamples -/

/-- A sample valid form submission. -/
def sampleForm : FormInput := ⟨⟨2024, 1, 5⟩, "Alice", "abc", "Ring", 5000, "VA Problem"⟩

/-- A second sample valid form submission. -/
def sampleForm2 : FormInput := ⟨⟨2024, 1, 6⟩, "Bob", "abc", "Chain", 2500, "JPS Card"⟩

/-- A persisted file with one form-written row whose contact happens to be
numeric text. -/
def sampleFile : CsvFile :=
  ⟨columns, [["2024-01-01", "Alice", "123", "Ring", "5.000", "VA Problem"]]⟩

/-- A sample row of the report section's frame. -/
def sampleReportRow : ReportRow := ⟨0, "n", "c", "p", "w", "r"⟩

/-! ## C4: empty required field rejects the submission and persists nothing -/

/-- Claim C4. For every form submission in which name, product, or reason is
empty (the check on line 109 of `app2.py`), the stored file is left exactly
as it was — nothing is appended and the file is not rewritten — and the
user-visible outcome is the warning, not the confirmation. -/
theorem submit_missing_required_field_rejected (file : Option CsvFile) (f : FormInput)
    (h : f.name = "" ∨ f.product = "" ∨ f.reason = "") :
    handleSubmit file f = (file, .warning) := by
  unfold handleSubmit
  rw [if_pos h]

theorem submit_missing_required_field_rejected_witness :
    handleSubmit none ⟨⟨2024, 1, 5⟩, "", "077", "Bangle", 5000, "VA Problem"⟩ =
      (none, .warning) :=
  submit_missing_required_field_rejected none _ (Or.inl rfl)

/-! ## C10: a whitespace-only name passes the falsiness check and is persisted -/

/-- Claim C10. The required-field check (`not form_name`, line 109) only tests
for the empty string, so a submission whose name is all whitespace (with
product and reason selected) passes validation: the handler reports success
and rewrites the file with a last row carrying that whitespace-only name. -/
theorem whitespace_only_name_is_persisted (file : Option CsvFile) (f : FormInput)
    (hne : f.name ≠ "") (_hws : ∀ c ∈ f.name.data, c.isWhitespace = true)
    (hp : f.product ≠ "") (hr : f.reason ≠ "") :
    handleSubmit file f =
      (some ⟨(load_data file).header, (load_data file).rows.map renderRow ++ [entryRow f]⟩,
       .success) ∧
    (entryRow f).getD 1 "" = f.name := by
  constructor
  · unfold handleSubmit
    rw [if_neg]
    push_neg
    exact ⟨hne, hp, hr⟩
  · rfl

theorem whitespace_only_name_is_persisted_witness :
    handleSubmit none ⟨⟨2024, 1, 5⟩, " ", "077", "Bangle", 5000, "VA Problem"⟩ =
      (some ⟨columns, [entryRow ⟨⟨2024, 1, 5⟩, " ", "077", "Bangle", 5000, "VA Problem"⟩]⟩,
       .success) ∧
    (entryRow ⟨⟨2024, 1, 5⟩, " ", "077", "Bangle", 5000, "VA Problem"⟩).getD 1 "" = " " :=
  whitespace_only_name_is_persisted none _ (by decide) (by decide) (by decide) (by decide)

/-! ## C6: start date after end date produces an error and no document -/

/-- Claim C6. For every start/end pair with start strictly after end, the
Generate PDF Report handler (line 133) reports the error outcome: the
filter, the chart renderer and the PDF builder are not reached and no
document is produced. -/
theorem generate_start_after_end_errors (rows : List ReportRow) (s e : Int) (b : Bool)
    (h : s > e) : generate_handler rows s e b = .error := by
  unfold generate_handler
  rw [if_pos h]

theorem generate_start_after_end_errors_witness :
    generate_handler [sampleReportRow] 6 3 true = .error :=
  generate_start_after_end_errors _ 6 3 true (by decide)

/-! ## C3: the date filter is the closed interval [start, end] -/

/-- Claim C3. For every stored collection and every start/end pair with
start ≤ end, the filtered set used for report generation (the mask on lines
136–137) is exactly the rows whose date lies in the closed interval: a row
dated exactly start or exactly end is kept, and a row dated start − 1 day or
end + 1 day is dropped. -/
theorem filter_is_closed_interval (rows : List ReportRow) (s e : Int) (h : s ≤ e) :
    (∀ r, r ∈ filterByDate rows s e ↔ r ∈ rows ∧ s ≤ r.date ∧ r.date ≤ e) ∧
    (∀ r ∈ rows, r.date = s ∨ r.date = e → r ∈ filterByDate rows s e) ∧
    (∀ r ∈ rows, r.date = s - 1 ∨ r.date = e + 1 → r ∉ filterByDate rows s e) := by
  refine ⟨?_, ?_, ?_⟩
  · intro r
    simp [filterByDate, List.mem_filter]
  · intro r hr hd
    simp only [filterByDate, List.mem_filter, decide_eq_true_eq]
    refine ⟨hr, ?_⟩
    rcases hd with hd | hd <;> omega
  · intro r hr hd
    simp only [filterByDate, List.mem_filter, decide_eq_true_eq]
    rintro ⟨-, h1, h2⟩
    rcases hd with hd | hd <;> omega

theorem filter_is_closed_interval_witness :
    (sampleReportRow ∈ filterByDate [sampleReportRow] 0 3 ↔
      sampleReportRow ∈ [sampleReportRow] ∧ 0 ≤ sampleReportRow.date ∧ sampleReportRow.date ≤ 3) :=
  (filter_is_closed_interval [sampleReportRow] 0 3 (by decide)).1 sampleReportRow

/-! ## C5: loading with no file gives the empty six-column frame; dates load as raw text -/

/-- Claim C5. When no persisted file exists, `load_data` returns the empty
frame carrying exactly the six named columns; and when the file exists,
every cell of a column named "Date" is read back as its raw text (the
`dtype={'Date': str}` argument suppresses all parsing of that column). -/
theorem load_data_schema_and_raw_dates :
    load_data none =
      ⟨["Date", "Customer Name", "Contact Number", "Product", "Weight (grams)",
        "Reason for Feedback"], []⟩ ∧
    ∀ (file : CsvFile) (i j : Nat), j < file.header.length →
      file.header.getD j "" = "Date" →
      ((load_data (some file)).rows.getD i []).getD j (.str "") =
        .str ((file.rows.getD i []).getD j "") := by
  constructor
  · rfl
  · intro file i j hj hdate
    show ((read_csv file).rows.getD i []).getD j (.str "") = _
    unfold read_csv
    simp only [List.getD_eq_getElem?_getD, List.getElem?_map]
    cases hrow : file.rows[i]? with
    | none => simp
    | some r =>
      simp only [Option.map_some', Option.getD_some]
      rw [List.getElem?_map, List.getElem?_range hj]
      rw [List.getD_eq_getElem?_getD] at hdate
      simp [inferDType, typeCell, hdate]

theorem load_data_schema_and_raw_dates_witness :
    ((load_data (some sampleFile)).rows.getD 0 []).getD 0 (.str "") =
      .str ((sampleFile.rows.getD 0 []).getD 0 "") :=
  load_data_schema_and_raw_dates.2 sampleFile 0 0 (by decide) (by decide)

/-! ## C8: the chart aggregates by reason, counts, and sorts ascending -/

instance : IsTotal (String × Nat) (fun a b => a.2 ≤ b.2) :=
  ⟨fun a b => Nat.le_total a.2 b.2⟩

instance : IsTrans (String × Nat) (fun a b => a.2 ≤ b.2) :=
  ⟨fun _ _ _ h1 h2 => le_trans h1 h2⟩

/-- Claim C8. For every non-empty frame with a reason column,
`create_reason_chart` draws one bar per distinct reason, each bar's length
being the number of occurrences of that reason, and the bars are ordered
ascending by count. -/
theorem chart_groups_counts_and_sorts (cols : List String) (rows : List ReportRow)
    (hne : rows ≠ []) (hcol : "Reason for Feedback" ∈ cols) :
    ∃ bars, create_reason_chart cols rows = some bars ∧
      (bars.map Prod.fst).Perm (rows.map (·.reason)).dedup ∧
      (∀ p ∈ bars, p.2 = (rows.map (·.reason)).count p.1) ∧
      bars.Pairwise (fun a b => a.2 ≤ b.2) := by
  refine ⟨sortByCount (value_counts (rows.map (·.reason))), ?_, ?_, ?_, ?_⟩
  · unfold create_reason_chart
    rw [if_neg]
    push_neg
    exact ⟨by simpa using hne, hcol⟩
  · have hperm : (sortByCount (value_counts (rows.map (·.reason)))).Perm
        (value_counts (rows.map (·.reason))) :=
      List.perm_insertionSort _ _
    refine (hperm.map Prod.fst).trans ?_
    unfold value_counts
    rw [List.map_map]
    exact (List.map_id _).symm ▸ (by simp : _ )
  · intro p hp
    have hmem : p ∈ value_counts (rows.map (·.reason)) :=
      (List.perm_insertionSort _ _).mem_iff.mp hp
    unfold value_counts at hmem
    rw [List.mem_map] at hmem
    obtain ⟨r, _, hr⟩ := hmem
    rw [← hr]
  · exact List.sorted_insertionSort _ _

theorem chart_groups_counts_and_sorts_witness :
    ∃ bars, create_reason_chart columns [sampleReportRow] = some bars ∧
      (bars.map Prod.fst).Perm ([sampleReportRow].map (·.reason)).dedup ∧
      (∀ p ∈ bars, p.2 = ([sampleReportRow].map (·.reason)).count p.1) ∧
      bars.Pairwise (fun a b => a.2 ≤ b.2) :=
  chart_groups_counts_and_sorts columns [sampleReportRow] (by decide) (by decide)

/-! ## Layout invariants of the report builder -/

theorem head?_append_left {α : Type} {l l' : List α} {x : α} (h : l.head? = some x) :
    (l ++ l').head? = some x := by
  cases l with
  | nil => simp at h
  | cons a t => simpa using h

/-- The explicit form of one loop iteration when the page-break fires. -/
theorem drawEntryBlock_break {st : RepState} (hy : st.y < 1080) :
    drawEntryBlock st =
      { page := st.page + 1, y := 6624, idx := st.idx + 1,
        ops := st.ops ++
          [⟨st.page + 1, 7200, .header true⟩,
           ⟨st.page + 1, 7020, .entryLine1 st.idx⟩,
           ⟨st.page + 1, 6876, .entryLine2 st.idx⟩,
           ⟨st.page + 1, 6804, .divider st.idx⟩] } := by
  unfold drawEntryBlock
  rw [if_pos hy]
  dsimp only
  norm_num [List.append_assoc]

/-- The explicit form of one loop iteration when the entry fits. -/
theorem drawEntryBlock_no_break {st : RepState} (hy : ¬ st.y < 1080) :
    drawEntryBlock st =
      { page := st.page, y := st.y - 396, idx := st.idx + 1,
        ops := st.ops ++
          [⟨st.page, st.y, .entryLine1 st.idx⟩,
           ⟨st.page, st.y - 144, .entryLine2 st.idx⟩,
           ⟨st.page, st.y - 216, .divider st.idx⟩] } := by
  unfold drawEntryBlock
  rw [if_neg hy]
  dsimp only
  have h1 : st.y - 144 - 72 - 180 = st.y - 396 := by omega
  have h2 : st.y - 144 - 72 = st.y - 216 := by omega
  rw [h1, h2]

/-- The layout invariant maintained by the entry loop: drawn content stays
at or above 1.2 in (864 dp), first entry lines at or above 1.5 in, second
lines at or above 1.3 in; pages never exceed the current page; every page
after the first opens with the "Continued" header; an entry's two text
lines share a page; ops only mention already-drawn entries, and every drawn
entry has both its lines; the current page has an op when positive; the
cursor never exceeds the first entry position. -/
structure RInv (st : RepState) : Prop where
  ylow : ∀ o ∈ st.ops, (864 : Int) ≤ o.y
  l1low : ∀ o ∈ st.ops, ∀ i, o.kind = .entryLine1 i → (1080 : Int) ≤ o.y
  l2low : ∀ o ∈ st.ops, ∀ i, o.kind = .entryLine2 i → (936 : Int) ≤ o.y
  pageLe : ∀ o ∈ st.ops, o.page ≤ st.page
  contFirst : ∀ p : Nat, 1 ≤ p → p ≤ st.page →
    (st.ops.filter (fun o => o.page = p)).head? = some ⟨p, 7200, .header true⟩
  pair : ∀ (i : Nat) (o1 o2 : Op), o1 ∈ st.ops → o2 ∈ st.ops →
    o1.kind = .entryLine1 i → o2.kind = .entryLine2 i → o1.page = o2.page
  idxBound : ∀ o ∈ st.ops, ∀ i,
    o.kind = .entryLine1 i ∨ o.kind = .entryLine2 i ∨ o.kind = .divider i → i < st.idx
  complete : ∀ i < st.idx,
    (∃ o ∈ st.ops, o.kind = .entryLine1 i) ∧ ∃ o ∈ st.ops, o.kind = .entryLine2 i
  pageWit : 1 ≤ st.page → ∃ o ∈ st.ops, o.page = st.page
  yUb : st.y ≤ 7020

theorem rinv_step {st : RepState} (h : RInv st) : RInv (drawEntryBlock st) := by
  by_cases hy : st.y < 1080
  · rw [drawEntryBlock_break hy]
    refine ⟨?_, ?_, ?_, ?_, ?_, ?_, ?_, ?_, ?_, ?_⟩ <;> dsimp only
    · intro o ho
      rw [List.mem_append] at ho
      rcases ho with ho | ho
      · exact h.ylow o ho
      · fin_cases ho <;> norm_num
    · intro o ho i hk
      rw [List.mem_append] at ho
      rcases ho with ho | ho
      · exact h.l1low o ho i hk
      · fin_cases ho <;> simp_all <;> norm_num
    · intro o ho i hk
      rw [List.mem_append] at ho
      rcases ho with ho | ho
      · exact h.l2low o ho i hk
      · fin_cases ho <;> simp_all <;> norm_num
    · intro o ho
      rw [List.mem_append] at ho
      rcases ho with ho | ho
      · exact Nat.le_succ_of_le (h.pageLe o ho)
      · fin_cases ho <;> simp
    · intro p hp1 hp2
      rw [List.filter_append]
      rcases Nat.lt_or_ge p (st.page + 1) with hlt | hge
      · have hple : p ≤ st.page := by omega
        have : (List.filter (fun o => decide (o.page = p))
            [(⟨st.page + 1, 7200, .header true⟩ : Op),
             ⟨st.page + 1, 7020, .entryLine1 st.idx⟩,
             ⟨st.page + 1, 6876, .entryLine2 st.idx⟩,
             ⟨st.page + 1, 6804, .divider st.idx⟩]) = [] := by
          simp only [List.filter_eq_nil_iff]
          intro a ha
          fin_cases ha <;> simp <;> omega
        rw [this, List.append_nil]
        exact h.contFirst p hp1 hple
      · have hpeq : p = st.page + 1 := by omega
        subst hpeq
        have hnil : st.ops.filter (fun o => decide (o.page = st.page + 1)) = [] := by
          simp only [List.filter_eq_nil_iff]
          intro a ha
          have := h.pageLe a ha
          simp
          omega
        rw [hnil, List.nil_append]
        simp
    · intro i o1 o2 ho1 ho2 hk1 hk2
      rw [List.mem_append] at ho1 ho2
      have hidx1 : o1 ∈ st.ops → i < st.idx := fun hm => h.idxBound o1 hm i (Or.inl hk1)
      have hidx2 : o2 ∈ st.ops → i < st.idx := fun hm => h.idxBound o2 hm i (Or.inr (Or.inl hk2))
      rcases ho1 with ho1 | ho1 <;> rcases ho2 with ho2 | ho2
      · exact h.pair i o1 o2 ho1 ho2 hk1 hk2
      · exfalso
        have := hidx1 ho1
        fin_cases ho2 <;> simp_all
      · exfalso
        have := hidx2 ho2
        fin_cases ho1 <;> simp_all
      · fin_cases ho1 <;> fin_cases ho2 <;> simp_all
    · intro o ho i hk
      rw [List.mem_append] at ho
      rcases ho with ho | ho
      · exact Nat.lt_succ_of_lt (h.idxBound o ho i hk)
      · fin_cases ho <;> simp_all
    · intro i hi
      rcases Nat.lt_or_ge i st.idx with hlt | hge
      · obtain ⟨⟨o1, hm1, hk1⟩, o2, hm2, hk2⟩ := h.complete i hlt
        exact ⟨⟨o1, List.mem_append_left _ hm1, hk1⟩, o2, List.mem_append_left _ hm2, hk2⟩
      · have : i = st.idx := by omega
        subst this
        constructor
        · exact ⟨⟨st.page + 1, 7020, .entryLine1 st.idx⟩, by simp, rfl⟩
        · exact ⟨⟨st.page + 1, 6876, .entryLine2 st.idx⟩, by simp, rfl⟩
    · intro _
      exact ⟨⟨st.page + 1, 7200, .header true⟩, by simp, rfl⟩
    · norm_num
  · rw [drawEntryBlock_no_break hy]
    have hy1 : (1080 : Int) ≤ st.y := by omega
    refine ⟨?_, ?_, ?_, ?_, ?_, ?_, ?_, ?_, ?_, ?_⟩ <;> dsimp only
    · intro o ho
      rw [List.mem_append] at ho
      rcases ho with ho | ho
      · exact h.ylow o ho
      · fin_cases ho <;> simp <;> omega
    · intro o ho i hk
      rw [List.mem_append] at ho
      rcases ho with ho | ho
      · exact h.l1low o ho i hk
      · fin_cases ho <;> simp_all <;> omega
    · intro o ho i hk
      rw [List.mem_append] at ho
      rcases ho with ho | ho
      · exact h.l2low o ho i hk
      · fin_cases ho <;> simp_all <;> omega
    · intro o ho
      rw [List.mem_append] at ho
      rcases ho with ho | ho
      · exact h.pageLe o ho
      · fin_cases ho <;> simp
    · intro p hp1 hp2
      rw [List.filter_append]
      exact head?_append_left (h.contFirst p hp1 hp2)
    · intro i o1 o2 ho1 ho2 hk1 hk2
      rw [List.mem_append] at ho1 ho2
      have hidx1 : o1 ∈ st.ops → i < st.idx := fun hm => h.idxBound o1 hm i (Or.inl hk1)
      have hidx2 : o2 ∈ st.ops → i < st.idx := fun hm => h.idxBound o2 hm i (Or.inr (Or.inl hk2))
      rcases ho1 with ho1 | ho1 <;> rcases ho2 with ho2 | ho2
      · exact h.pair i o1 o2 ho1 ho2 hk1 hk2
      · exfalso
        have := hidx1 ho1
        fin_cases ho2 <;> simp_all
      · exfalso
        have := hidx2 ho2
        fin_cases ho1 <;> simp_all
      · fin_cases ho1 <;> fin_cases ho2 <;> simp_all
    · intro o ho i hk
      rw [List.mem_append] at ho
      rcases ho with ho | ho
      · exact Nat.lt_succ_of_lt (h.idxBound o ho i hk)
      · fin_cases ho <;> simp_all
    · intro i hi
      rcases Nat.lt_or_ge i st.idx with hlt | hge
      · obtain ⟨⟨o1, hm1, hk1⟩, o2, hm2, hk2⟩ := h.complete i hlt
        exact ⟨⟨o1, List.mem_append_left _ hm1, hk1⟩, o2, List.mem_append_left _ hm2, hk2⟩
      · have : i = st.idx := by omega
        subst this
        constructor
        · exact ⟨⟨st.page, st.y, .entryLine1 st.idx⟩, by simp, rfl⟩
        · exact ⟨⟨st.page, st.y - 144, .entryLine2 st.idx⟩, by simp, rfl⟩
    · intro hp
      obtain ⟨o, hm, he⟩ := h.pageWit hp
      exact ⟨o, List.mem_append_left _ hm, he⟩
    · have := h.yUb
      omega

/-- The entry loop preserves the layout invariant, advances the entry index
by the number of rows, and only appends drawing calls. -/
theorem rinv_fold (l : List ReportRow) (st : RepState) (h : RInv st) :
    RInv (l.foldl (fun st _ => drawEntryBlock st) st) ∧
    (l.foldl (fun st _ => drawEntryBlock st) st).idx = st.idx + l.length ∧
    ∀ o ∈ st.ops, o ∈ (l.foldl (fun st _ => drawEntryBlock st) st).ops := by
  induction l generalizing st with
  | nil => exact ⟨h, by simp, fun o ho => ho⟩
  | cons a t ih =>
    have hstep := rinv_step h
    have hsub : ∀ o ∈ st.ops, o ∈ (drawEntryBlock st).ops := by
      by_cases hy : st.y < 1080
      · rw [drawEntryBlock_break hy]
        intro o ho
        exact List.mem_append_left _ ho
      · rw [drawEntryBlock_no_break hy]
        intro o ho
        exact List.mem_append_left _ ho
    have hidx : (drawEntryBlock st).idx = st.idx + 1 := by
      by_cases hy : st.y < 1080
      · rw [drawEntryBlock_break hy]
      · rw [drawEntryBlock_no_break hy]
    obtain ⟨h1, h2, h3⟩ := ih (drawEntryBlock st) hstep
    refine ⟨h1, ?_, fun o ho => h3 o (hsub o ho)⟩
    simp only [List.foldl_cons] at *
    rw [h2, hidx, List.length_cons]
    omega

/-- Page progress of the entry loop in a no-chart run: either a page break
has already happened, or the cursor is exactly `7020 - 396 * idx` and at
least 684. -/
theorem fold_page_progress (l : List ReportRow) (st : RepState)
    (h : 1 ≤ st.page ∨ (st.page = 0 ∧ st.y = 7020 - 396 * (st.idx : Int) ∧ 684 ≤ st.y)) :
    1 ≤ (l.foldl (fun st _ => drawEntryBlock st) st).page ∨
      ((l.foldl (fun st _ => drawEntryBlock st) st).page = 0 ∧
       (l.foldl (fun st _ => drawEntryBlock st) st).y =
         7020 - 396 * ((l.foldl (fun st _ => drawEntryBlock st) st).idx : Int) ∧
       684 ≤ (l.foldl (fun st _ => drawEntryBlock st) st).y) := by
  induction l generalizing st with
  | nil => exact h
  | cons a t ih =>
    simp only [List.foldl_cons]
    apply ih
    by_cases hy : st.y < 1080
    · rw [drawEntryBlock_break hy]
      left
      simp
    · rw [drawEntryBlock_no_break hy]
      rcases h with h | ⟨h0, he, hl⟩
      · exact Or.inl h
      · right
        refine ⟨h0, ?_, ?_⟩
        · simp only []
          push_cast
          omega
        · simp only []
          omega

/-- The layout invariant holds for the state in which the entry loop starts
(title, optional chart, and the "Detailed Entries:" header already drawn). -/
theorem rinv_init (b : Bool) :
    RInv ⟨0, (if b then (7200 - 2880 : Int) else 7200) - 180, 0,
      ([(⟨0, 7380, .title⟩ : Op)] ++ (if b then [(⟨0, 7200 - 2520, .chartImg⟩ : Op)] else [])) ++
      [⟨0, (if b then (7200 - 2880 : Int) else 7200), .header false⟩]⟩ := by
  cases b
  · refine ⟨?_, ?_, ?_, ?_, ?_, ?_, ?_, ?_, ?_, ?_⟩ <;> dsimp only
    · intro o ho
      fin_cases ho <;> norm_num
    · intro o ho i hk
      fin_cases ho <;> simp_all
    · intro o ho i hk
      fin_cases ho <;> simp_all
    · intro o ho
      fin_cases ho <;> simp
    · intro p hp1 hp2
      exact absurd hp2 (by omega)
    · intro i o1 o2 ho1 ho2 hk1 hk2
      exfalso
      fin_cases ho1 <;> simp_all
    · intro o ho i hk
      exfalso
      fin_cases ho <;> simp_all
    · intro i hi
      exact absurd hi (Nat.not_lt_zero i)
    · intro hp
      exact absurd hp (by norm_num)
    · norm_num
  · refine ⟨?_, ?_, ?_, ?_, ?_, ?_, ?_, ?_, ?_, ?_⟩ <;> dsimp only
    · intro o ho
      fin_cases ho <;> norm_num
    · intro o ho i hk
      fin_cases ho <;> simp_all
    · intro o ho i hk
      fin_cases ho <;> simp_all
    · intro o ho
      fin_cases ho <;> simp
    · intro p hp1 hp2
      exact absurd hp2 (by omega)
    · intro i o1 o2 ho1 ho2 hk1 hk2
      exfalso
      fin_cases ho1 <;> simp_all
    · intro o ho i hk
      exfalso
      fin_cases ho <;> simp_all
    · intro i hi
      exact absurd hi (Nat.not_lt_zero i)
    · intro hp
      exact absurd hp (by norm_num)
    · norm_num

/-- The entry loop never draws a chart image. -/
theorem fold_no_chart (l : List ReportRow) (st : RepState)
    (h : ∀ o ∈ st.ops, o.kind ≠ .chartImg) :
    ∀ o ∈ (l.foldl (fun st _ => drawEntryBlock st) st).ops, o.kind ≠ .chartImg := by
  induction l generalizing st with
  | nil => exact h
  | cons a t ih =>
    simp only [List.foldl_cons]
    apply ih
    intro o ho
    by_cases hy : st.y < 1080
    · rw [drawEntryBlock_break hy] at ho
      dsimp only at ho
      rw [List.mem_append] at ho
      rcases ho with ho | ho
      · exact h o ho
      · fin_cases ho <;> simp
    · rw [drawEntryBlock_no_break hy] at ho
      dsimp only at ho
      rw [List.mem_append] at ho
      rcases ho with ho | ho
      · exact h o ho
      · fin_cases ho <;> simp

/-! ## C2: pagination -/

set_option maxRecDepth 4000

/-- Claim C2 (counterexample). Sixteen entries with no chart stay on a single
page, yet the sixteenth entry's second text line (y = 936 dp = 1.3 in) and
divider (y = 864 dp = 1.2 in) are drawn below the 1.5 in (1080 dp) bottom
margin: the claim that drawn content never violates the 1.5 in margin — and
that a collection overflowing the space above that margin spans multiple
pages — fails. -/
theorem report_sixteen_entries_violate_margin :
    (∀ o ∈ create_report_pdf (List.replicate 16 sampleReportRow) none, o.page = 0) ∧
    (∃ o ∈ create_report_pdf (List.replicate 16 sampleReportRow) none,
      o.y < 1080 ∧ o.kind = .entryLine2 15) := by
  decide

/-- A chartless report on at least 17 entries overflows the first page. -/
theorem report_multipage_of_many (entries : List ReportRow) (hlen : 17 ≤ entries.length) :
    ∃ o ∈ create_report_pdf entries none, 1 ≤ o.page := by
  obtain ⟨hInv, hidx, -⟩ := rinv_fold entries
    (⟨0, 7020, 0, [⟨0, 7380, .title⟩, ⟨0, 7200, .header false⟩]⟩ : RepState)
    (rinv_init false)
  have hops : create_report_pdf entries none =
      (entries.foldl (fun st _ => drawEntryBlock st)
        (⟨0, 7020, 0, [⟨0, 7380, .title⟩, ⟨0, 7200, .header false⟩]⟩ : RepState)).ops := rfl
  rw [hops]
  have hprog := fold_page_progress entries
    (⟨0, 7020, 0, [⟨0, 7380, .title⟩, ⟨0, 7200, .header false⟩]⟩ : RepState)
    (Or.inr ⟨rfl, by norm_num, by norm_num⟩)
  rcases hprog with hp | ⟨-, hy, hge⟩
  · obtain ⟨o, ho, hoe⟩ := hInv.pageWit hp
    exact ⟨o, ho, by omega⟩
  · exfalso
    rw [hidx] at hy
    rw [hy] at hge
    push_cast at hge
    omega

/-- Claim C2 (amended). The page-break check runs before each entry's block
but the block then extends 0.55 in below its start, so the margin actually
guaranteed is 1.2 in (dividers), with entry text at or above 1.3 in and
block starts at or above 1.5 in. The rest of the claim holds as stated: an
entry's two text lines always share a page, every page after the first
begins with the "Continued" header, and once the entries overflow the page
(at least 17 of them in a chartless run) the report spans multiple pages. -/
theorem report_pagination_layout (entries : List ReportRow)
    (chart : Option (List (String × Nat))) :
    (∀ o ∈ create_report_pdf entries chart, (864 : Int) ≤ o.y) ∧
    (∀ o ∈ create_report_pdf entries chart, ∀ i, o.kind = .entryLine1 i → (1080 : Int) ≤ o.y) ∧
    (∀ o ∈ create_report_pdf entries chart, ∀ i, o.kind = .entryLine2 i → (936 : Int) ≤ o.y) ∧
    (∀ (i : Nat) (o1 o2 : Op), o1 ∈ create_report_pdf entries chart →
      o2 ∈ create_report_pdf entries chart →
      o1.kind = .entryLine1 i → o2.kind = .entryLine2 i → o1.page = o2.page) ∧
    (∀ p : Nat, 1 ≤ p → (∃ o ∈ create_report_pdf entries chart, o.page = p) →
      ((create_report_pdf entries chart).filter (fun o => o.page = p)).head? =
        some ⟨p, 7200, .header true⟩) ∧
    (17 ≤ entries.length → chart = none →
      ∃ o ∈ create_report_pdf entries chart, 1 ≤ o.page) := by
  obtain ⟨hInv, hidx, -⟩ := rinv_fold entries _ (rinv_init chart.isSome)
  have hops : create_report_pdf entries chart =
      (entries.foldl (fun st _ => drawEntryBlock st)
        ⟨0, (if chart.isSome then (7200 - 2880 : Int) else 7200) - 180, 0,
         ([(⟨0, 7380, .title⟩ : Op)] ++
            (if chart.isSome then [(⟨0, 7200 - 2520, .chartImg⟩ : Op)] else [])) ++
         [⟨0, (if chart.isSome then (7200 - 2880 : Int) else 7200), .header false⟩]⟩).ops := by
    rfl
  rw [hops]
  refine ⟨hInv.ylow, hInv.l1low, hInv.l2low, hInv.pair, ?_, ?_⟩
  · intro p hp1 ⟨o, ho, hop⟩
    exact hInv.contFirst p hp1 (hop ▸ hInv.pageLe o ho)
  · intro hlen hchart
    subst hchart
    exact report_multipage_of_many entries hlen

theorem report_pagination_layout_witness :
    ∃ o ∈ create_report_pdf (List.replicate 17 sampleReportRow) none, 1 ≤ o.page :=
  (report_pagination_layout (List.replicate 17 sampleReportRow) none).2.2.2.2.2
    (by simp) rfl

/-! ## C7: no chart for empty input or missing reason column; report omits chart -/

/-- Claim C7. The chart renderer returns `None` for every empty collection and
for every frame lacking the reason column (line 27); and whenever no chart
image is handed to the report builder, the report contains no chart block at
all while still drawing both text lines of every entry of the filtered
collection. -/
theorem chart_none_cases_and_report_omits_chart :
    (∀ cols, create_reason_chart cols [] = none) ∧
    (∀ cols rows, "Reason for Feedback" ∉ cols → create_reason_chart cols rows = none) ∧
    (∀ entries : List ReportRow,
      (∀ o ∈ create_report_pdf entries none, o.kind ≠ .chartImg) ∧
      ∀ i < entries.length,
        (∃ o ∈ create_report_pdf entries none, o.kind = .entryLine1 i) ∧
        ∃ o ∈ create_report_pdf entries none, o.kind = .entryLine2 i) := by
  refine ⟨?_, ?_, ?_⟩
  · intro cols
    unfold create_reason_chart
    rw [if_pos]
    left
    rfl
  · intro cols rows hcol
    unfold create_reason_chart
    rw [if_pos]
    right
    exact hcol
  · intro entries
    obtain ⟨hInv, hidx, -⟩ :=
      rinv_fold entries _ (rinv_init (none : Option (List (String × Nat))).isSome)
    constructor
    · apply fold_no_chart
      intro o ho
      fin_cases ho <;> simp
    · intro i hi
      have : i < (entries.foldl (fun st _ => drawEntryBlock st)
          ⟨0, (if (none : Option (List (String × Nat))).isSome then (7200 - 2880 : Int) else 7200) - 180, 0,
           ([(⟨0, 7380, .title⟩ : Op)] ++
              (if (none : Option (List (String × Nat))).isSome then [(⟨0, 7200 - 2520, .chartImg⟩ : Op)] else [])) ++
           [⟨0, (if (none : Option (List (String × Nat))).isSome then (7200 - 2880 : Int) else 7200), .header false⟩]⟩).idx := by
        rw [hidx]
        omega
      exact hInv.complete i this

theorem chart_none_cases_and_report_omits_chart_witness :
    create_reason_chart ["Date"] [sampleReportRow] = none :=
  chart_none_cases_and_report_omits_chart.2.1 ["Date"] [sampleReportRow] (by decide)

/-! ## Correctness of the cell parsers and renderers -/

theorem takeWhile_digits {l : List Char} (h : ∀ c ∈ l, c.isDigit = true) :
    l.takeWhile (·.isDigit) = l ∧ l.dropWhile (·.isDigit) = [] := by
  induction l with
  | nil => exact ⟨rfl, rfl⟩
  | cons c cs ih =>
    have hc : c.isDigit = true := h c (List.mem_cons_self c cs)
    obtain ⟨h1, h2⟩ := ih (fun x hx => h x (List.mem_cons_of_mem c hx))
    constructor
    · rw [List.takeWhile_cons, hc]
      simp [h1]
    · rw [List.dropWhile_cons, hc]
      simpa using h2

theorem takeWhile_digits_append {l1 : List Char} (l2 : List Char)
    (h : ∀ c ∈ l1, c.isDigit = true) :
    (l1 ++ '.' :: l2).takeWhile (·.isDigit) = l1 ∧
    (l1 ++ '.' :: l2).dropWhile (·.isDigit) = '.' :: l2 := by
  induction l1 with
  | nil =>
    constructor
    · rw [List.nil_append, List.takeWhile_cons]
      simp
    · rw [List.nil_append, List.dropWhile_cons]
      simp
  | cons c cs ih =>
    have hc : c.isDigit = true := h c (List.mem_cons_self c cs)
    obtain ⟨h1, h2⟩ := ih (fun x hx => h x (List.mem_cons_of_mem c hx))
    constructor
    · rw [List.cons_append, List.takeWhile_cons, hc]
      simp [h1]
    · rw [List.cons_append, List.dropWhile_cons, hc]
      simpa using h2

theorem stripTrailingZeros_spec (l : List Char) :
    ∃ j, l = stripTrailingZeros l ++ List.replicate j '0' := by
  induction l with
  | nil => exact ⟨0, rfl⟩
  | cons c cs ih =>
    obtain ⟨j, hj⟩ := ih
    unfold stripTrailingZeros
    cases hr : stripTrailingZeros cs with
    | nil =>
      by_cases hc : c = '0'
      · subst hc
        rw [if_pos rfl]
        refine ⟨j + 1, ?_⟩
        rw [List.nil_append, List.replicate_succ]
        rw [hr, List.nil_append] at hj
        rw [← hj]
      · rw [if_neg hc]
        refine ⟨j, ?_⟩
        rw [hr, List.nil_append] at hj
        rw [List.singleton_append, ← hj]
    | cons r rs =>
      refine ⟨j, ?_⟩
      rw [hr] at hj
      rw [List.cons_append, ← hj]

theorem stripTrailingZeros_val (l : List Char) :
    (natOfDigits (stripTrailingZeros l) : ℚ) / 10 ^ (stripTrailingZeros l).length =
      (natOfDigits l : ℚ) / 10 ^ l.length := by
  obtain ⟨j, hj⟩ := stripTrailingZeros_spec l
  conv_rhs => rw [hj]
  rw [natOfDigits_append, natOfDigits_replicate_zero, List.length_append,
    List.length_replicate]
  push_cast
  rw [pow_add]
  have h10 : ((10 : ℚ) ^ (stripTrailingZeros l).length) ≠ 0 := by positivity
  have h10j : ((10 : ℚ) ^ j) ≠ 0 := by positivity
  field_simp
  ring

theorem parseDec_all_digits {l : List Char} (hne : l ≠ [])
    (h : ∀ c ∈ l, c.isDigit = true) :
    parseDec l = some (natOfDigits l, 0) := by
  obtain ⟨h1, h2⟩ := takeWhile_digits h
  unfold parseDec
  rw [h1, h2]
  simp [hne]

theorem parseDec_decimal (ip fp : List Char) (hne : ip ≠ [])
    (hip : ∀ c ∈ ip, c.isDigit = true) (hfp : ∀ c ∈ fp, c.isDigit = true) :
    parseDec (ip ++ '.' :: fp) =
      some (natOfDigits ip * 10 ^ (stripTrailingZeros fp).length +
              natOfDigits (stripTrailingZeros fp),
            (stripTrailingZeros fp).length) ∧
    ((natOfDigits ip * 10 ^ (stripTrailingZeros fp).length +
        natOfDigits (stripTrailingZeros fp) : ℚ) / 10 ^ (stripTrailingZeros fp).length) =
      (natOfDigits ip : ℚ) + (natOfDigits fp : ℚ) / 10 ^ fp.length := by
  obtain ⟨h1, h2⟩ := takeWhile_digits_append fp hip
  constructor
  · unfold parseDec
    rw [h1, h2]
    dsimp only
    rw [if_pos rfl, if_pos]
    constructor
    · rw [List.all_eq_true]
      exact hfp
    · left
      simpa [List.isEmpty_iff] using hne
  · have hK : ((10 : ℚ) ^ (stripTrailingZeros fp).length) ≠ 0 := by positivity
    push_cast
    rw [add_div, mul_div_assoc, div_self hK, mul_one]
    rw [stripTrailingZeros_val]

theorem parseNumCell_mk_of_digit {c : Char} (r : List Char) (h : c.isDigit = true) :
    parseNumCell ⟨c :: r⟩ = (parseDec (c :: r)).map (fun p => ((p.1 : Int), p.2)) := by
  show parseNumCell (String.mk (c :: r)) = _
  unfold parseNumCell
  dsimp only
  rw [if_neg (isDigit_ne_plus h), if_neg (isDigit_ne_minus h)]

theorem parseDigitsOnly_eq_some {l : List Char} {a : Nat}
    (h : parseDigitsOnly l = some a) :
    l ≠ [] ∧ (∀ c ∈ l, c.isDigit = true) ∧ a = natOfDigits l := by
  unfold parseDigitsOnly at h
  by_cases h1 : l.isEmpty
  · rw [if_pos h1] at h
    exact absurd h (by simp)
  · rw [if_neg h1] at h
    by_cases h2 : l.all (·.isDigit)
    · rw [if_pos h2] at h
      refine ⟨by simpa [List.isEmpty_iff] using h1, ?_, by injection h; omega⟩
      rw [List.all_eq_true] at h2
      exact h2
    · rw [if_neg h2] at h
      exact absurd h (by simp)

theorem parseDigitsOnly_all_digits {l : List Char} (hne : l ≠ [])
    (h : ∀ c ∈ l, c.isDigit = true) : parseDigitsOnly l = some (natOfDigits l) := by
  unfold parseDigitsOnly
  rw [if_neg (by simpa [List.isEmpty_iff] using hne), if_pos (by rw [List.all_eq_true]; exact h)]

theorem padDigits_all_digit (w n : Nat) : ∀ c ∈ padDigits w n, c.isDigit = true := by
  intro c hc
  unfold padDigits at hc
  rw [List.mem_append] at hc
  rcases hc with hc | hc
  · rw [List.eq_of_mem_replicate hc]
    decide
  · exact natToDigits_all_digit n c hc

theorem natOfDigits_padDigits (w n : Nat) : natOfDigits (padDigits w n) = n := by
  unfold padDigits
  rw [natOfDigits_append, natOfDigits_replicate_zero, natOfDigits_natToDigits]
  simp

theorem padDigits_length {w n : Nat} (h : n < 10 ^ w) (hw : 1 ≤ w) :
    (padDigits w n).length = w := by
  unfold padDigits
  rw [List.length_append, List.length_replicate]
  have := natToDigits_length_le hw h
  omega

/-- The text `f"{w:.3f}"` parses back (as pandas' float column does) to exactly the
submitted weight in grams. -/
theorem parseNumCell_formatWeight (n : Nat) :
    ∃ m k, parseNumCell (formatWeight n) = some (m, k) ∧
      qval m k = (n : ℚ) / 1000 := by
  obtain ⟨c, cs, hcc⟩ := List.exists_cons_of_ne_nil (natToDigits_ne_nil (n / 1000))
  have hdig : ∀ x ∈ c :: cs, x.isDigit = true := by
    rw [← hcc]
    exact natToDigits_all_digit (n / 1000)
  have hfp : ∀ x ∈ padDigits 3 (n % 1000), x.isDigit = true := padDigits_all_digit 3 (n % 1000)
  obtain ⟨hparse, hval⟩ :=
    parseDec_decimal (c :: cs) (padDigits 3 (n % 1000)) (by simp) hdig hfp
  have hfw : formatWeight n = ⟨c :: (cs ++ '.' :: padDigits 3 (n % 1000))⟩ := by
    unfold formatWeight
    rw [hcc]
    rfl
  have hnum : parseNumCell (formatWeight n) =
      (parseDec ((c :: cs) ++ '.' :: padDigits 3 (n % 1000))).map
        (fun p => ((p.1 : Int), p.2)) := by
    rw [hfw, parseNumCell_mk_of_digit _ (hdig c (List.mem_cons_self c cs))]
    rfl
  rw [hparse] at hnum
  simp only [Option.map_some'] at hnum
  refine ⟨_, _, hnum, ?_⟩
  unfold qval
  push_cast
  rw [hval]
  rw [show (c :: cs) = natToDigits (n / 1000) from hcc.symm, natOfDigits_natToDigits,
    natOfDigits_padDigits, padDigits_length (show n % 1000 < 10 ^ 3 by omega) (by norm_num)]
  have hdm : ((n / 1000 : Nat) : ℚ) * 1000 + ((n % 1000 : Nat) : ℚ) = (n : ℚ) := by
    have hq : n / 1000 * 1000 + n % 1000 = n := by omega
    exact_mod_cast hq
  have h1000 : ((10 : ℚ) ^ 3) = 1000 := by norm_num
  rw [h1000]
  field_simp
  linarith [hdm]

/-- The 3-decimal weight text is not an integer literal (it contains a dot),
so a weight column never becomes an integer column. -/
theorem parseIntCell_formatWeight (n : Nat) : parseIntCell (formatWeight n) = none := by
  obtain ⟨c, cs, hcc⟩ := List.exists_cons_of_ne_nil (natToDigits_ne_nil (n / 1000))
  have hdig : ∀ x ∈ c :: cs, x.isDigit = true := by
    rw [← hcc]
    exact natToDigits_all_digit (n / 1000)
  have hc := hdig c (List.mem_cons_self c cs)
  have hfw : formatWeight n = ⟨c :: (cs ++ '.' :: padDigits 3 (n % 1000))⟩ := by
    unfold formatWeight
    rw [hcc]
    rfl
  rw [hfw]
  show parseIntCell (String.mk _) = none
  unfold parseIntCell
  dsimp only
  rw [if_neg (isDigit_ne_plus hc), if_neg (isDigit_ne_minus hc)]
  have hdot : parseDigitsOnly (c :: (cs ++ '.' :: padDigits 3 (n % 1000))) = none := by
    unfold parseDigitsOnly
    rw [if_neg (by simp)]
    rw [if_neg]
    intro hall
    rw [List.all_eq_true] at hall
    have := hall '.' (by
      apply List.mem_cons_of_mem
      rw [List.mem_append]
      right
      exact List.mem_cons_self _ _)
    simp at this
  rw [hdot]
  rfl

/-- Python's `repr` of an integer parses back to the same integer. -/
theorem parseNumCell_intRepr (n : Int) : parseNumCell (intRepr n) = some (n, 0) := by
  by_cases hn : n < 0
  · unfold intRepr
    rw [if_pos hn]
    show parseNumCell (String.mk _) = _
    unfold parseNumCell
    dsimp only
    rw [if_neg (by decide), if_pos rfl]
    rw [parseDec_all_digits (natToDigits_ne_nil n.natAbs) (natToDigits_all_digit n.natAbs)]
    rw [natOfDigits_natToDigits]
    simp only [Option.map_some']
    have habs : ((n.natAbs : Int)) = -n := by omega
    rw [habs, neg_neg]
  · unfold intRepr
    rw [if_neg hn]
    obtain ⟨c, cs, hcc⟩ := List.exists_cons_of_ne_nil (natToDigits_ne_nil n.natAbs)
    have hdig : ∀ x ∈ c :: cs, x.isDigit = true := by
      rw [← hcc]
      exact natToDigits_all_digit n.natAbs
    rw [hcc, parseNumCell_mk_of_digit _ (hdig c (List.mem_cons_self c cs))]
    rw [← hcc, parseDec_all_digits (natToDigits_ne_nil n.natAbs) (natToDigits_all_digit n.natAbs),
      natOfDigits_natToDigits]
    simp only [Option.map_some']
    have habs : ((n.natAbs : Int)) = n := by omega
    rw [habs]

/-- Any string an integer column accepted is also accepted by a float
column, with the same value. -/
theorem parseNumCell_of_parseIntCell {s : String} {n : Int}
    (h : parseIntCell s = some n) : parseNumCell s = some (n, 0) := by
  unfold parseIntCell at h
  unfold parseNumCell
  cases hd : s.data with
  | nil =>
    rw [hd] at h
    dsimp only at h
    exact absurd h (by simp)
  | cons c r =>
    rw [hd] at h
    dsimp only at h ⊢
    by_cases hplus : c = '+'
    · rw [if_pos hplus] at h ⊢
      obtain ⟨a, ha, han⟩ := Option.map_eq_some'.mp h
      obtain ⟨hne, hdig, hval⟩ := parseDigitsOnly_eq_some ha
      rw [parseDec_all_digits hne hdig]
      simp only [Option.map_some']
      rw [← han, hval]
      rfl
    · rw [if_neg hplus] at h ⊢
      by_cases hminus : c = '-'
      · rw [if_pos hminus] at h ⊢
        obtain ⟨a, ha, han⟩ := Option.map_eq_some'.mp h
        obtain ⟨hne, hdig, hval⟩ := parseDigitsOnly_eq_some ha
        rw [parseDec_all_digits hne hdig]
        simp only [Option.map_some']
        rw [← hval, han]
      · rw [if_neg hminus] at h ⊢
        obtain ⟨a, ha, han⟩ := Option.map_eq_some'.mp h
        obtain ⟨hne, hdig, hval⟩ := parseDigitsOnly_eq_some ha
        rw [parseDec_all_digits hne hdig]
        simp only [Option.map_some']
        rw [← han, hval]
        rfl

/-- Python's `repr` of the float `m / 10^k` parses back (as pandas' float
column does) to the same value. -/
theorem parseNumCell_floatRepr_val (m : Int) (k : Nat) :
    ∃ m' k', parseNumCell (floatRepr m k) = some (m', k') ∧ qval m' k' = qval m k := by
  have habs : ((m.natAbs : Int)) = if m < 0 then -m else m := by
    split <;> omega
  set d0 := natToDigits m.natAbs with hd0
  set d := List.replicate (k + 1 - d0.length) '0' ++ d0 with hd
  have hd_all : ∀ c ∈ d, c.isDigit = true := by
    intro c hc
    rw [hd, List.mem_append] at hc
    rcases hc with hc | hc
    · rw [List.eq_of_mem_replicate hc]
      decide
    · exact natToDigits_all_digit m.natAbs c hc
  have hd0len : 1 ≤ d0.length := by
    have := natToDigits_ne_nil m.natAbs
    rw [← hd0] at this
    cases hl : d0.length with
    | zero => exact absurd (List.eq_nil_of_length_eq_zero hl) this
    | succ j => omega
  have hlen : k + 1 ≤ d.length := by
    rw [hd, List.length_append, List.length_replicate]
    omega
  set ip := d.take (d.length - k) with hipd
  set fp := d.drop (d.length - k) with hfpd
  have hsplit : ip ++ fp = d := List.take_append_drop _ _
  have hip_ne : ip ≠ [] := by
    have : ip.length = d.length - k := by
      rw [hipd, List.length_take]
      omega
    intro hnil
    rw [hnil] at this
    simp at this
    omega
  have hip_dig : ∀ c ∈ ip, c.isDigit = true := fun c hc => hd_all c (List.take_subset _ _ hc)
  have hfp_dig : ∀ c ∈ fp, c.isDigit = true := fun c hc => hd_all c (List.drop_subset _ _ hc)
  have hfp_len : fp.length = k := by
    rw [hfpd, List.length_drop]
    omega
  have hval_d : natOfDigits d = m.natAbs := by
    rw [hd, natOfDigits_append, natOfDigits_replicate_zero, hd0, natOfDigits_natToDigits]
    simp
  have hval_sum : natOfDigits ip * 10 ^ k + natOfDigits fp = m.natAbs := by
    rw [← hval_d, ← hsplit, natOfDigits_append, hfp_len]
  set B := (if k = 0 then ['0'] else fp) with hB
  have hBdig : ∀ c ∈ B, c.isDigit = true := by
    rw [hB]
    split
    · intro c hc
      simp only [List.mem_singleton] at hc
      subst hc
      decide
    · exact hfp_dig
  obtain ⟨hparse, hvv⟩ := parseDec_decimal ip B hip_ne hip_dig hBdig
  have hvalq : ((natOfDigits ip : ℚ) * 10 ^ (stripTrailingZeros B).length +
        (natOfDigits (stripTrailingZeros B) : ℚ)) / 10 ^ (stripTrailingZeros B).length =
      (m.natAbs : ℚ) / 10 ^ k := by
    rw [hvv]
    by_cases hk : k = 0
    · subst hk
      have hfpnil : fp = [] := List.eq_nil_of_length_eq_zero hfp_len
      have hipv : natOfDigits ip = m.natAbs := by
        rw [hfpnil] at hval_sum
        simpa [natOfDigits] using hval_sum
      rw [hB]
      simp only [if_pos rfl]
      rw [hipv]
      norm_num [natOfDigits]
      decide
    · rw [hB, if_neg hk, hfp_len]
      have h10 : ((10 : ℚ) ^ k) ≠ 0 := by positivity
      rw [← hval_sum]
      push_cast
      field_simp
  by_cases hm : m < 0
  · have hfr : floatRepr m k = ⟨'-' :: (ip ++ '.' :: B)⟩ := by
      unfold floatRepr
      rw [if_pos hm]
      rfl
    have hpn : parseNumCell ⟨'-' :: (ip ++ '.' :: B)⟩ =
        (parseDec (ip ++ '.' :: B)).map (fun p => (-(p.1 : Int), p.2)) := by
      show parseNumCell (String.mk _) = _
      unfold parseNumCell
      dsimp only
      rw [if_neg (by decide), if_pos rfl]
    rw [hparse] at hpn
    simp only [Option.map_some'] at hpn
    refine ⟨_, _, hfr ▸ hpn, ?_⟩
    unfold qval
    push_cast
    have habs2 : ((m.natAbs : ℚ)) = -(m : ℚ) := by
      have h1 : ((m.natAbs : Int) : ℚ) = ((-m : Int) : ℚ) := by
        congr 1
        omega
      rw [Int.cast_natCast, Int.cast_neg] at h1
      exact h1
    rw [neg_div, hvalq, habs2, neg_div, neg_neg]
  · obtain ⟨c, cs, hcc⟩ := List.exists_cons_of_ne_nil hip_ne
    have hfr : floatRepr m k = ⟨c :: (cs ++ '.' :: B)⟩ := by
      unfold floatRepr
      rw [if_neg hm]
      show String.mk ([] ++ ip ++ '.' :: B) = _
      rw [List.nil_append, hcc]
      rfl
    have hpn : parseNumCell ⟨c :: (cs ++ '.' :: B)⟩ =
        (parseDec ((c :: cs) ++ '.' :: B)).map (fun p => ((p.1 : Int), p.2)) := by
      rw [parseNumCell_mk_of_digit _ (hip_dig c (hcc ▸ List.mem_cons_self c cs))]
      rfl
    rw [← hcc, hparse] at hpn
    simp only [Option.map_some'] at hpn
    refine ⟨_, _, hfr ▸ hpn, ?_⟩
    unfold qval
    push_cast
    have habs2 : ((m.natAbs : ℚ)) = (m : ℚ) := by
      have h1 : ((m.natAbs : Int) : ℚ) = ((m : Int) : ℚ) := by
        congr 1
        omega
      rw [Int.cast_natCast] at h1
      exact h1
    rw [hvalq, habs2]

/-! ## Column-dtype facts and cell equivalence -/

theorem getD_map_range {α : Type} {n j : Nat} (g : Nat → α) (d : α) (hj : j < n) :
    ((List.range n).map g).getD j d = g j := by
  rw [List.getD_eq_getElem?_getD, List.getElem?_map, List.getElem?_range hj]
  rfl

theorem typeCell_empty (d : DType) : typeCell d "" = .str "" := by
  cases d <;> rfl

/-- A column containing a cell that is not numeric text is left as raw
text. -/
theorem inferDType_dstr_of_mem {col : List String} {s : String}
    (hs : s ∈ col) (hnum : parseNumCell s = none) :
    inferDType false col = .dstr := by
  have hnotnum : ¬(col.all (fun s => (parseNumCell s).isSome) = true) := by
    intro hall
    rw [List.all_eq_true] at hall
    have := hall s hs
    rw [hnum] at this
    simp at this
  have hnotint : ¬(col.all (fun s => (parseIntCell s).isSome) = true) := by
    intro hall
    rw [List.all_eq_true] at hall
    have h2 := hall s hs
    cases hp : parseIntCell s with
    | none => rw [hp] at h2; simp at h2
    | some n =>
      have := parseNumCell_of_parseIntCell hp
      rw [hnum] at this
      exact absurd this (by simp)
  unfold inferDType
  rw [if_neg (by simp), if_neg hnotint, if_neg hnotnum]

/-- An all-numeric column becomes an integer or a float column. -/
theorem inferDType_int_or_float {col : List String}
    (hall : ∀ s ∈ col, (parseNumCell s).isSome = true) :
    inferDType false col = .dint ∨ inferDType false col = .dfloat := by
  unfold inferDType
  rw [if_neg (by simp)]
  by_cases h1 : col.all (fun s => (parseIntCell s).isSome) = true
  · rw [if_pos h1]
    left
    rfl
  · rw [if_neg h1, if_pos (by rw [List.all_eq_true]; exact hall)]
    right
    rfl

/-- An all-numeric column with one non-integer cell becomes a float
column. -/
theorem inferDType_dfloat {col : List String}
    (hall : ∀ s ∈ col, (parseNumCell s).isSome = true)
    {s0 : String} (hs0 : s0 ∈ col) (hint : parseIntCell s0 = none) :
    inferDType false col = .dfloat := by
  have hnotint : ¬(col.all (fun s => (parseIntCell s).isSome) = true) := by
    intro h1
    rw [List.all_eq_true] at h1
    have := h1 s0 hs0
    rw [hint] at this
    simp at this
  unfold inferDType
  rw [if_neg (by simp), if_neg hnotint, if_pos (by rw [List.all_eq_true]; exact hall)]

theorem all_int_of_dint {col : List String} (h : inferDType false col = .dint) :
    ∀ s ∈ col, (parseIntCell s).isSome = true := by
  unfold inferDType at h
  rw [if_neg (by simp)] at h
  by_cases h1 : col.all (fun s => (parseIntCell s).isSome) = true
  · rw [List.all_eq_true] at h1
    exact h1
  · rw [if_neg h1] at h
    exfalso
    by_cases h2 : col.all (fun s => (parseNumCell s).isSome) = true
    · rw [if_pos h2] at h
      exact absurd h (by simp)
    · rw [if_neg h2] at h
      exact absurd h (by simp)

/-- Rendering a typed cell back to text preserves the cell's content: the
text is unchanged, or both texts denote the same number. -/
def cellTextEquiv (a b : String) : Prop :=
  a = b ∨ ∃ p q : Int × Nat, parseNumCell a = some p ∧ parseNumCell b = some q ∧
    qval p.1 p.2 = qval q.1 q.2

theorem render_typeCell_equiv (d : DType) (s : String) :
    cellTextEquiv (renderCell (typeCell d s)) s := by
  cases d with
  | dstr => left; rfl
  | dint =>
    unfold typeCell
    cases hp : parseIntCell s with
    | none => left; rfl
    | some n =>
      right
      exact ⟨(n, 0), (n, 0), parseNumCell_intRepr n, parseNumCell_of_parseIntCell hp, rfl⟩
  | dfloat =>
    unfold typeCell
    cases hp : parseNumCell s with
    | none => left; rfl
    | some p =>
      obtain ⟨m, k⟩ := p
      right
      obtain ⟨m', k', h1, h2⟩ := parseNumCell_floatRepr_val m k
      exact ⟨(m', k'), (m, k), h1, hp, h2⟩

/-- A rendered numeric cell still parses as a number. -/
theorem render_typeCell_isSome {d : DType} {s : String}
    (hnum : (parseNumCell s).isSome = true)
    (hd : d = .dint → (parseIntCell s).isSome = true) :
    (parseNumCell (renderCell (typeCell d s))).isSome = true := by
  cases d with
  | dstr => exact hnum
  | dint =>
    unfold typeCell
    cases hp : parseIntCell s with
    | none =>
      have hcontra := hd rfl
      rw [hp] at hcontra
      exact absurd hcontra (by simp)
    | some n =>
      show (parseNumCell (intRepr n)).isSome = true
      rw [parseNumCell_intRepr]
      rfl
  | dfloat =>
    unfold typeCell
    cases hp : parseNumCell s with
    | none =>
      rw [hp] at hnum
      exact absurd hnum (by simp)
    | some p =>
      obtain ⟨m, k⟩ := p
      show (parseNumCell (floatRepr m k)).isSome = true
      obtain ⟨m', k', h1, -⟩ := parseNumCell_floatRepr_val m k
      rw [h1]
      rfl

/-- The (i, j) cell text after loading and re-rendering a file. -/
theorem rendered_cell (fl : CsvFile) (i j : Nat) (hj : j < fl.header.length) :
    (((read_csv fl).rows.map renderRow).getD i []).getD j "" =
      renderCell (typeCell
        (inferDType (fl.header.getD j "" = "Date") (colRaw fl j))
        ((fl.rows.getD i []).getD j "")) := by
  unfold read_csv
  dsimp only
  rw [List.map_map]
  simp only [List.getD_eq_getElem?_getD, List.getElem?_map]
  cases hrow : fl.rows[i]? with
  | none =>
    simp only [Option.map_none', Option.getD_none, List.getElem?_nil]
    rw [typeCell_empty]
    rfl
  | some r =>
    simp only [Option.map_some', Option.getD_some, Function.comp]
    show (renderRow _)[j]?.getD "" = _
    unfold renderRow
    rw [List.map_map, List.getElem?_map, List.getElem?_range hj]
    rfl

/-! ## C9: append keeps all prior rows, in order, appending the new row last -/

/-- Claim C9 (counterexample). Appending a valid entry to a store holding one
row with weight `"5.000"` and contact `"123"` rewrites the whole file and
does not leave the prior entry unchanged: its weight text becomes `"5.0"`
(the float round-trip drops the 3-decimal formatting), and its loaded
contact value changes from the integer `123` to the text `"123"` (the new
row's non-numeric contact demotes the column). -/
theorem append_rewrites_prior_row :
    ((((handleSubmit (some sampleFile) sampleForm2).1.getD ⟨[], []⟩).rows.getD 0 []).getD 4 "")
      = "5.0" ∧
    (sampleFile.rows.getD 0 []).getD 4 "" = "5.000" ∧
    ((load_data (some sampleFile)).rows.getD 0 []).getD 2 (.str "") = .int 123 ∧
    ((load_data (handleSubmit (some sampleFile) sampleForm2).1).rows.getD 0 []).getD 2 (.str "")
      = .str "123" := by
  decide

/-- Claim C9 (amended). For every valid submission the handler rewrites the
whole persisted file as the loaded rows re-rendered to text followed by the
new entry's row, with no synthetic index column (each written row has
exactly the header's cells): the row count and order of the prior entries
are preserved and the new entry is the last row, but a prior cell is
preserved only up to numeric re-rendering — its text is unchanged or
denotes the same number (e.g. `"5.000"` is rewritten `"5.0"`). No operation
deletes a row. -/
theorem append_preserves_prior_rows (fl : CsvFile) (f : FormInput)
    (hname : f.name ≠ "") (hprod : f.product ≠ "") (hreas : f.reason ≠ "") :
    handleSubmit (some fl) f =
      (some ⟨fl.header, (read_csv fl).rows.map renderRow ++ [entryRow f]⟩, .success) ∧
    ((read_csv fl).rows.map renderRow).length = fl.rows.length ∧
    (∀ r ∈ (read_csv fl).rows.map renderRow, r.length = fl.header.length) ∧
    (∀ i j : Nat, j < fl.header.length →
      cellTextEquiv ((((read_csv fl).rows.map renderRow).getD i []).getD j "")
        ((fl.rows.getD i []).getD j "")) := by
  refine ⟨?_, ?_, ?_, ?_⟩
  · unfold handleSubmit
    rw [if_neg (by push_neg; exact ⟨hname, hprod, hreas⟩)]
    rfl
  · unfold read_csv
    simp
  · intro r hr
    rw [List.mem_map] at hr
    obtain ⟨tr, htr, hrr⟩ := hr
    unfold read_csv at htr
    dsimp only at htr
    rw [List.mem_map] at htr
    obtain ⟨r0, -, hr0⟩ := htr
    rw [← hrr, ← hr0]
    unfold renderRow
    simp
  · intro i j hj
    rw [rendered_cell fl i j hj]
    exact render_typeCell_equiv _ _

theorem append_preserves_prior_rows_witness :
    handleSubmit (some sampleFile) sampleForm2 =
      (some ⟨sampleFile.header,
        (read_csv sampleFile).rows.map renderRow ++ [entryRow sampleForm2]⟩, .success) :=
  (append_preserves_prior_rows sampleFile sampleForm2 (by decide) (by decide) (by decide)).1

/-! ## C1: the append/reload round trip -/

theorem read_csv_getLast (fl : CsvFile) (rows' : List Row) (r : Row)
    (hrows : fl.rows = rows' ++ [r]) :
    (read_csv fl).rows.getLast? = some ((List.range fl.header.length).map
      (fun j => typeCell (inferDType (fl.header.getD j "" = "Date") (colRaw fl j))
        (r.getD j ""))) := by
  unfold read_csv
  dsimp only
  rw [hrows, List.map_append]
  simp only [List.map_cons, List.map_nil]
  rw [List.getLast?_concat]

/-- The store states for which the round-trip statement is made: no file
yet, or a file with the fixed schema whose weight cells are numeric text —
as every file written by the form is. -/
def StoreWF : Option CsvFile → Prop
  | none => True
  | some fl => fl.header = columns ∧ ∀ r ∈ fl.rows, (parseNumCell (r.getD 4 "")).isSome = true

/-- Claim C1 (counterexample). Submitting a valid entry with weight input 5
(stored as the text `"5.000"`) and immediately reloading does not return
the weight as the string `"5.000"`: `read_csv`'s type inference makes the
weight column a float column, so the last row's weight field is the number
5.0, which does not compare equal to the string `"5.000"`. -/
theorem roundtrip_weight_not_text :
    ((load_data (handleSubmit none sampleForm).1).rows.getLast?.getD []).getD 4 (.str "")
      = .float 5 0 ∧
    Cell.float 5 0 ≠ .str "5.000" := by
  decide

/-- Claim C1 (amended). For every valid submission (non-empty name, product,
reason) whose text fields are not numeric text (the fixed product and
reason options never are) appended to a well-formed store, reloading
returns a collection whose last row carries the submitted values: the date
normalized to `YYYY-MM-DD`, name, contact, product and reason verbatim as
text, and the weight — stored as the exact 3-decimal text — read back not
as that string but as a float comparing equal to the submitted weight. -/
theorem roundtrip_last_row (file : Option CsvFile) (f : FormInput)
    (hname : f.name ≠ "") (hprod : f.product ≠ "") (hreas : f.reason ≠ "")
    (hn : parseNumCell f.name = none) (hc : parseNumCell f.contact = none)
    (hp : parseNumCell f.product = none) (hr : parseNumCell f.reason = none)
    (hwf : StoreWF file) :
    ∃ m k, (load_data (handleSubmit file f).1).rows.getLast? =
        some [Cell.str (formatDate f.date), Cell.str f.name, Cell.str f.contact,
              Cell.str f.product, Cell.float m k, Cell.str f.reason] ∧
      qval m k = (f.weightMg : ℚ) / 1000 := by
  have hsub : (handleSubmit file f).1 =
      some ⟨(load_data file).header, (load_data file).rows.map renderRow ++ [entryRow f]⟩ := by
    unfold handleSubmit
    rw [if_neg (by push_neg; exact ⟨hname, hprod, hreas⟩)]
  have hhdr : (load_data file).header = columns := by
    cases file with
    | none => rfl
    | some fl =>
      show fl.header = columns
      exact hwf.1
  have hwcol : ∀ r ∈ (load_data file).rows.map renderRow,
      (parseNumCell (r.getD 4 "")).isSome = true := by
    cases file with
    | none =>
      intro r hrm
      simp [load_data] at hrm
    | some fl =>
      intro r hrm
      rw [List.mem_map] at hrm
      obtain ⟨tr, htr, hrr⟩ := hrm
      show (parseNumCell (r.getD 4 "")).isSome = true
      unfold load_data read_csv at htr
      dsimp only at htr
      rw [List.mem_map] at htr
      obtain ⟨r0, hr0m, hr0⟩ := htr
      rw [← hrr, ← hr0]
      unfold renderRow
      rw [hwf.1, List.map_map, getD_map_range _ _ (by decide : (4 : Nat) < columns.length)]
      apply render_typeCell_isSome
      · exact hwf.2 r0 hr0m
      · intro hdint
        rw [show (decide (columns.getD 4 "" = "Date")) = false from rfl] at hdint
        apply all_int_of_dint hdint
        unfold colRaw
        rw [List.mem_map]
        exact ⟨r0, hr0m, rfl⟩
  rw [hhdr] at hsub
  set prior := (load_data file).rows.map renderRow with hpr
  have hall4 : ∀ s ∈ colRaw ⟨columns, prior ++ [entryRow f]⟩ 4,
      (parseNumCell s).isSome = true := by
    intro s hs
    unfold colRaw at hs
    rw [List.mem_map] at hs
    obtain ⟨r1, hr1, hs1⟩ := hs
    rw [List.mem_append] at hr1
    rcases hr1 with hr1 | hr1
    · rw [← hs1]
      exact hwcol r1 hr1
    · rw [List.mem_singleton] at hr1
      subst hr1
      rw [← hs1]
      show (parseNumCell (formatWeight f.weightMg)).isSome = true
      obtain ⟨m, k, hmk, -⟩ := parseNumCell_formatWeight f.weightMg
      rw [hmk]
      rfl
  have hmemrow : ∀ j : Nat, ((entryRow f).getD j "") ∈ colRaw ⟨columns, prior ++ [entryRow f]⟩ j := by
    intro j
    unfold colRaw
    rw [List.mem_map]
    exact ⟨entryRow f, by simp, rfl⟩
  have hd4 : inferDType false (colRaw ⟨columns, prior ++ [entryRow f]⟩ 4) = .dfloat :=
    inferDType_dfloat hall4 (hmemrow 4) (parseIntCell_formatWeight f.weightMg)
  have hd1 : inferDType false (colRaw ⟨columns, prior ++ [entryRow f]⟩ 1) = .dstr :=
    inferDType_dstr_of_mem (hmemrow 1) hn
  have hd2 : inferDType false (colRaw ⟨columns, prior ++ [entryRow f]⟩ 2) = .dstr :=
    inferDType_dstr_of_mem (hmemrow 2) hc
  have hd3 : inferDType false (colRaw ⟨columns, prior ++ [entryRow f]⟩ 3) = .dstr :=
    inferDType_dstr_of_mem (hmemrow 3) hp
  have hd5 : inferDType false (colRaw ⟨columns, prior ++ [entryRow f]⟩ 5) = .dstr :=
    inferDType_dstr_of_mem (hmemrow 5) hr
  obtain ⟨m, k, hmk, hqv⟩ := parseNumCell_formatWeight f.weightMg
  refine ⟨m, k, ?_, hqv⟩
  rw [hsub]
  show (read_csv ⟨columns, prior ++ [entryRow f]⟩).rows.getLast? = _
  rw [read_csv_getLast _ prior (entryRow f) rfl]
  congr 1
  rw [show List.range (⟨columns, prior ++ [entryRow f]⟩ : CsvFile).header.length
      = [0, 1, 2, 3, 4, 5] from rfl]
  simp only [List.map_cons, List.map_nil]
  have hb0 : (decide ((⟨columns, prior ++ [entryRow f]⟩ : CsvFile).header.getD 0 "" = "Date")) = true := rfl
  have hb1 : (decide ((⟨columns, prior ++ [entryRow f]⟩ : CsvFile).header.getD 1 "" = "Date")) = false := rfl
  have hb2 : (decide ((⟨columns, prior ++ [entryRow f]⟩ : CsvFile).header.getD 2 "" = "Date")) = false := rfl
  have hb3 : (decide ((⟨columns, prior ++ [entryRow f]⟩ : CsvFile).header.getD 3 "" = "Date")) = false := rfl
  have hb4 : (decide ((⟨columns, prior ++ [entryRow f]⟩ : CsvFile).header.getD 4 "" = "Date")) = false := rfl
  have hb5 : (decide ((⟨columns, prior ++ [entryRow f]⟩ : CsvFile).header.getD 5 "" = "Date")) = false := rfl
  rw [hb0, hb1, hb2, hb3, hb4, hb5,
    show (inferDType true (colRaw ⟨columns, prior ++ [entryRow f]⟩ 0)) = .dstr from rfl,
    hd1, hd2, hd3, hd4, hd5,
    show (List.getD (entryRow f) 4 "") = formatWeight f.weightMg from rfl]
  unfold typeCell
  dsimp only
  rw [hmk]
  rfl

theorem roundtrip_last_row_witness :
    ∃ m k, (load_data (handleSubmit none sampleForm).1).rows.getLast? =
        some [Cell.str (formatDate sampleForm.date), Cell.str sampleForm.name,
              Cell.str sampleForm.contact, Cell.str sampleForm.product, Cell.float m k,
              Cell.str sampleForm.reason] ∧
      qval m k = (sampleForm.weightMg : ℚ) / 1000 :=
  roundtrip_last_row none sampleForm (by decide) (by decide) (by decide) (by decide)
    (by decide) (by decide) (by decide) trivial

end FeedbackApp
